import Mathlib

/-!
Verification of the font build/extract pipeline (`build_font.py`, `extract_font.py`)
of the sub-fonts repository, via a shallow embedding of its table-level algorithms.

Python's mutable font objects are modelled by immutable Lean structures with
explicit state passing; dictionaries become association lists or functions;
fallible code returns `Except`.  Machine arithmetic on font metrics stays within
signed 16/32-bit ranges in practice, so `Int`/`Nat` are used directly; the
floating-point width fraction is modelled as a rational number.
-/

set_option maxHeartbeats 1000000

/-- The fixed namespacing string prepended to donor glyph names
(`merge_font_prefix = "inter_"` in `build_font.py`). -/
def mergeFontPfx : String := "inter_"

/-! ## Common OpenType layout model (FeatureList / ScriptList, shared by GSUB and GPOS) -/

/-- `Feature` table: the list of lookup indices a feature references
(`Feature.LookupListIndex`). -/
structure Feature where
  lookupListIndex : List Nat
  deriving DecidableEq, Repr

/-- `FeatureRecord`: a feature tag together with its `Feature` table. -/
structure FeatureRecord where
  featureTag : String
  feature : Feature
  deriving DecidableEq, Repr

/-- `LangSys` table: the feature indices attached to one language system. -/
structure LangSys where
  featureIndex : List Nat
  deriving DecidableEq, Repr

/-- `LangSysRecord`: wrapper holding a `LangSys` (the record's tag is never
inspected by the code under verification, so it is omitted). -/
structure LangSysRecord where
  langSys : LangSys
  deriving DecidableEq, Repr

/-- `Script` table: optional default language system plus language-system records. -/
structure Script where
  defaultLangSys : Option LangSys
  langSysRecord : List LangSysRecord
  deriving DecidableEq, Repr

/-- `ScriptRecord`: a script tag together with its `Script` table. -/
structure ScriptRecord where
  scriptTag : String
  script : Script
  deriving DecidableEq, Repr

/-- `FeatureList` with its stored `FeatureCount` field (fontTools keeps the
count as a separate attribute which the merge code reads and writes). -/
structure FeatureList where
  featureRecord : List FeatureRecord
  featureCount : Nat
  deriving DecidableEq, Repr

/-- `ScriptList` with its stored `ScriptCount` field. -/
structure ScriptList where
  scriptRecord : List ScriptRecord
  scriptCount : Nat
  deriving DecidableEq, Repr

/-! ## GPOS subtable model for the cross-font merge

The generic `remap` traversal of `merge_inter_font_gpos_table` rewrites glyph
names found in Coverage `glyphs` lists, `classDefs` dictionaries (including the
PairPos Format 2 `ClassDef1`/`ClassDef2`), PairPos Format 1 `SecondGlyph`
fields, and recurses through `ExtSubTable` wrappers and generic substructure.
Integers and strings such as tags and indices are skipped as primitives. -/

/-- PairPos Format 1 `PairValueRecord` (only the glyph-name field matters for
the remap; the value records carry no glyph names). -/
structure PairValueRecord where
  secondGlyph : String
  deriving DecidableEq, Repr

/-- PairPos Format 1 `PairSet`. -/
structure PairSet where
  pairValueRecord : List PairValueRecord
  deriving DecidableEq, Repr

/-- A GPOS lookup subtable as seen by the merge's `remap` traversal: coverage
lists, class-definition maps, pair second glyphs, and the extension wrapper. -/
inductive SubTable where
  /-- Single adjustment: a Coverage `glyphs` list. -/
  | singlePos (coverage : List String)
  /-- Pair adjustment Format 1: Coverage plus `PairSet`s with `SecondGlyph`s. -/
  | pairPos1 (coverage : List String) (pairSet : List PairSet)
  /-- Pair adjustment Format 2: Coverage plus `ClassDef1`/`ClassDef2` class maps. -/
  | pairPos2 (coverage : List String) (classDef1 : List (String × Nat))
      (classDef2 : List (String × Nat))
  /-- Extension positioning: wrapper holding `ExtSubTable`. -/
  | extensionPos (inner : SubTable)
  deriving DecidableEq, Repr

/-- A GPOS `Lookup`: its type number and subtables. -/
structure Lookup where
  lookupType : Nat
  subTable : List SubTable
  deriving DecidableEq, Repr

/-- `LookupList` with its stored `LookupCount` field. -/
structure LookupList where
  lookup : List Lookup
  lookupCount : Nat
  deriving DecidableEq, Repr

/-- The GPOS table: lookup list, feature list, script list. -/
structure GposTable where
  lookupList : LookupList
  featureList : FeatureList
  scriptList : ScriptList
  deriving DecidableEq, Repr

/-- The primary font as seen by the GPOS merge: its (optional) GPOS table and
the `_inter_gpos_merged` idempotency attribute (`getattr(..., False)` reads
`false` when the attribute was never set). -/
structure MergeFont where
  gpos : Option GposTable
  interGposMerged : Bool
  deriving DecidableEq, Repr

/-- `inter_name_map.get(g, g)`: look a glyph name up in the donor name map,
returning the name unchanged when absent. -/
def rn (m : List (String × String)) (g : String) : String :=
  match m.find? (fun p => p.1 == g) with
  | some p => p.2
  | none => g

/-- The `inter_name_map` built by `merge_inter_font`: every donor glyph name
mapped to its namespaced form `merge_font_prefix + name`. -/
def mkInterNameMap (donorOrder : List String) : List (String × String) :=
  donorOrder.map (fun g => (g, mergeFontPfx ++ g))

/-- `remap` on a PairPos Format 1 `PairValueRecord`: rewrite `SecondGlyph`. -/
def remapPVR (m : List (String × String)) (p : PairValueRecord) : PairValueRecord :=
  ⟨rn m p.secondGlyph⟩

/-- `remap` on a `PairSet`. -/
def remapPairSet (m : List (String × String)) (s : PairSet) : PairSet :=
  ⟨s.pairValueRecord.map (remapPVR m)⟩

/-- `remap` on one subtable: Coverage `glyphs`, `classDefs` keys (the name map
is injective on donor names, so the dict comprehension loses no entries),
PairPos second glyphs, and recursion into `ExtSubTable`. -/
def remapSubTable (m : List (String × String)) : SubTable → SubTable
  | .singlePos cov => .singlePos (cov.map (rn m))
  | .pairPos1 cov ps => .pairPos1 (cov.map (rn m)) (ps.map (remapPairSet m))
  | .pairPos2 cov c1 c2 =>
      .pairPos2 (cov.map (rn m)) (c1.map (fun p => (rn m p.1, p.2)))
        (c2.map (fun p => (rn m p.1, p.2)))
  | .extensionPos inner => .extensionPos (remapSubTable m inner)

/-- `remap` reached through a lookup: every subtable is rewritten. -/
def remapLookup (m : List (String × String)) (l : Lookup) : Lookup :=
  { l with subTable := l.subTable.map (remapSubTable m) }

/-- `remap(new_gpos.table)`: the traversal rewrites glyph names throughout the
lookup list; feature and script records hold only tags and integer indices,
which the traversal skips as primitives. -/
def remapGposTable (m : List (String × String)) (g : GposTable) : GposTable :=
  { g with lookupList := { g.lookupList with
      lookup := g.lookupList.lookup.map (remapLookup m) } }

/-- Offset applied to each appended donor `FeatureRecord`:
`[lookup_offset + i for i in new_fr.Feature.LookupListIndex]`. -/
def offsetFeatureRecord (off : Nat) (fr : FeatureRecord) : FeatureRecord :=
  { fr with feature := ⟨fr.feature.lookupListIndex.map (fun i => off + i)⟩ }

/-- Offset applied to a `LangSys`:
`[feature_offset + fi for fi in ...FeatureIndex]`. -/
def offsetLangSys (off : Nat) (ls : LangSys) : LangSys :=
  ⟨ls.featureIndex.map (fun i => off + i)⟩

/-- Offset applied to each appended donor `ScriptRecord`: the default language
system (when present) and every language-system record get their feature
indices shifted. -/
def offsetScriptRecord (off : Nat) (sr : ScriptRecord) : ScriptRecord :=
  { sr with script :=
      { defaultLangSys := sr.script.defaultLangSys.map (offsetLangSys off)
        langSysRecord := sr.script.langSysRecord.map
          (fun lsr => ⟨offsetLangSys off lsr.langSys⟩) } }

/-- `merge_inter_font_gpos_table`: merge the donor GPOS into the primary.
Returns immediately when the `_inter_gpos_merged` flag is set; sets the flag in
every path.  With no donor GPOS, nothing else changes.  With no primary GPOS,
the remapped donor table is adopted wholesale.  Otherwise each donor lookup is
inserted at index 0 of the primary's lookup list (a `foldl`, mirroring the
`insert(0, ...)` loop), donor features are appended with lookup indices shifted
by the primary's stored pre-merge `LookupCount`, donor scripts are appended
with feature indices shifted by the primary's stored pre-merge `FeatureCount`,
and the stored counts are reset to the new list lengths. -/
def mergeInterFontGposTable (target : MergeFont) (donorGpos : Option GposTable)
    (m : List (String × String)) : MergeFont :=
  if target.interGposMerged then target
  else
    match donorGpos with
    | none => { target with interGposMerged := true }
    | some donor =>
      match target.gpos with
      | none => { gpos := some (remapGposTable m donor), interGposMerged := true }
      | some tgt =>
        let lookupOffset := tgt.lookupList.lookupCount
        let featureOffset := tgt.featureList.featureCount
        let src := remapGposTable m donor
        let newLookup :=
          src.lookupList.lookup.foldl (fun acc l => l :: acc) tgt.lookupList.lookup
        let newFeature :=
          src.featureList.featureRecord.foldl
            (fun acc fr => acc ++ [offsetFeatureRecord lookupOffset fr])
            tgt.featureList.featureRecord
        let newScript :=
          src.scriptList.scriptRecord.foldl
            (fun acc sr => acc ++ [offsetScriptRecord featureOffset sr])
            tgt.scriptList.scriptRecord
        { gpos := some
            { lookupList := ⟨newLookup, newLookup.length⟩
              featureList := ⟨newFeature, newFeature.length⟩
              scriptList := ⟨newScript, newScript.length⟩ }
          interGposMerged := true }

/-! ### Helper lemmas on the folds used by the merge -/

theorem foldl_flip_cons {α : Type} (l acc : List α) :
    l.foldl (fun a x => x :: a) acc = l.reverse ++ acc := by
  induction l generalizing acc with
  | nil => simp
  | cons h t ih => simp [List.foldl_cons, ih, List.reverse_cons]

theorem foldl_append_singleton {α β : Type} (f : α → β) (l : List α) (acc : List β) :
    l.foldl (fun a x => a ++ [f x]) acc = acc ++ l.map f := by
  induction l generalizing acc with
  | nil => simp
  | cons h t ih => simp [List.foldl_cons, ih]

/-! ## C1 / C6: the merge's index offsetting and idempotency flag -/

/-- Closed form of the merge: with a primary GPOS present (flag clear), the
result's lookup list is the remapped donor's lookups reversed in front of the
primary's, its features are the primary's followed by the offset donor
features, its scripts the primary's followed by the offset donor scripts;
with no primary GPOS, the remapped donor table is adopted wholesale. -/
theorem merge_gpos_eq (tg dg : GposTable) (m : List (String × String)) :
    (mergeInterFontGposTable ⟨some tg, false⟩ (some dg) m =
      { gpos := some
          { lookupList :=
              ⟨(remapGposTable m dg).lookupList.lookup.reverse ++ tg.lookupList.lookup,
               ((remapGposTable m dg).lookupList.lookup.reverse ++ tg.lookupList.lookup).length⟩
            featureList :=
              ⟨tg.featureList.featureRecord ++
                 (remapGposTable m dg).featureList.featureRecord.map
                   (offsetFeatureRecord tg.lookupList.lookupCount),
               (tg.featureList.featureRecord ++
                 (remapGposTable m dg).featureList.featureRecord.map
                   (offsetFeatureRecord tg.lookupList.lookupCount)).length⟩
            scriptList :=
              ⟨tg.scriptList.scriptRecord ++
                 (remapGposTable m dg).scriptList.scriptRecord.map
                   (offsetScriptRecord tg.featureList.featureCount),
               (tg.scriptList.scriptRecord ++
                 (remapGposTable m dg).scriptList.scriptRecord.map
                   (offsetScriptRecord tg.featureList.featureCount)).length⟩ }
        interGposMerged := true })
    ∧ mergeInterFontGposTable ⟨none, false⟩ (some dg) m =
        { gpos := some (remapGposTable m dg), interGposMerged := true } := by
  constructor
  · simp only [mergeInterFontGposTable]
    simp [foldl_flip_cons, foldl_append_singleton]
  · simp [mergeInterFontGposTable]

/-- C1: When the primary font already has a positioning table, the cross-font
merge prepends the donor's lookups to the primary's lookup list (each donor
lookup is inserted at index 0 in turn, so all donor lookups, in reversed donor
order, precede every primary lookup), appends every donor feature record with
each referenced lookup index increased by the primary's pre-merge lookup
count, and appends every donor script record with each feature index increased
by the primary's pre-merge feature count; when the primary has no positioning
table, the remapped donor table is adopted wholesale. -/
theorem merge_gpos_prepends_and_offsets (tg dg : GposTable) (m : List (String × String)) :
    (mergeInterFontGposTable ⟨some tg, false⟩ (some dg) m =
      { gpos := some
          { lookupList :=
              ⟨(remapGposTable m dg).lookupList.lookup.reverse ++ tg.lookupList.lookup,
               ((remapGposTable m dg).lookupList.lookup.reverse ++ tg.lookupList.lookup).length⟩
            featureList :=
              ⟨tg.featureList.featureRecord ++
                 (remapGposTable m dg).featureList.featureRecord.map
                   (offsetFeatureRecord tg.lookupList.lookupCount),
               (tg.featureList.featureRecord ++
                 (remapGposTable m dg).featureList.featureRecord.map
                   (offsetFeatureRecord tg.lookupList.lookupCount)).length⟩
            scriptList :=
              ⟨tg.scriptList.scriptRecord ++
                 (remapGposTable m dg).scriptList.scriptRecord.map
                   (offsetScriptRecord tg.featureList.featureCount),
               (tg.scriptList.scriptRecord ++
                 (remapGposTable m dg).scriptList.scriptRecord.map
                   (offsetScriptRecord tg.featureList.featureCount)).length⟩ }
        interGposMerged := true })
    ∧ mergeInterFontGposTable ⟨none, false⟩ (some dg) m =
        { gpos := some (remapGposTable m dg), interGposMerged := true } :=
  merge_gpos_eq tg dg m

/-- Every code path of the merge leaves the idempotency flag set. -/
theorem merge_gpos_sets_flag (t : MergeFont) (d : Option GposTable)
    (m : List (String × String)) :
    (mergeInterFontGposTable t d m).interGposMerged = (true : Bool) := by
  cases t with
  | mk g flag =>
    cases flag <;> cases d <;> cases g <;>
      simp [mergeInterFontGposTable]

/-- With the idempotency flag already set, the merge returns its target
untouched. -/
theorem merge_gpos_flag_noop (t : MergeFont) (d : Option GposTable)
    (m : List (String × String)) (h : t.interGposMerged = true) :
    mergeInterFontGposTable t d m = t := by
  simp [mergeInterFontGposTable, h]

/-- C6: Invoking the GPOS merge a second time on an already-merged primary font
is the identity: the first invocation records the `_inter_gpos_merged` flag on
the font object, and the guard makes the second invocation return the font
unchanged, so every lookup, feature and script count and every lookup/feature
index is unchanged. -/
theorem merge_gpos_idempotent (t : MergeFont) (d : Option GposTable)
    (m : List (String × String)) :
    mergeInterFontGposTable (mergeInterFontGposTable t d m) d m =
      mergeInterFontGposTable t d m :=
  merge_gpos_flag_noop _ _ _ (merge_gpos_sets_flag t d m)

/-! ## C2: glyph names reachable from the merged GPOS table -/

/-- All glyph names appearing in a subtable's coverage lists, class-definition
maps and pair-adjustment second-glyph fields. -/
def subTableNames : SubTable → List String
  | .singlePos cov => cov
  | .pairPos1 cov ps =>
      cov ++ (ps.map (fun s => s.pairValueRecord.map (fun p => p.secondGlyph))).flatten
  | .pairPos2 cov c1 c2 => cov ++ c1.map Prod.fst ++ c2.map Prod.fst
  | .extensionPos inner => subTableNames inner

/-- Glyph names reachable from one lookup. -/
def lookupNames (l : Lookup) : List String :=
  (l.subTable.map subTableNames).flatten

/-- Glyph names reachable from a GPOS table (features and scripts reference
lookups and features by integer index only, never by glyph name). -/
def gposNames (g : GposTable) : List String :=
  (g.lookupList.lookup.map lookupNames).flatten

/-- Glyph names reachable from an optional GPOS table. -/
def gposNamesOpt : Option GposTable → List String
  | none => []
  | some g => gposNames g

theorem subTableNames_remap (m : List (String × String)) (st : SubTable) :
    subTableNames (remapSubTable m st) = (subTableNames st).map (rn m) := by
  induction st with
  | singlePos cov => simp [remapSubTable, subTableNames]
  | pairPos1 cov ps =>
      simp only [remapSubTable, subTableNames, List.map_append, List.map_map,
        List.map_flatten]
      refine congrArg₂ (· ++ ·) rfl (congrArg List.flatten ?_)
      refine List.map_congr_left (fun s _ => ?_)
      simp [remapPairSet, remapPVR, Function.comp]
  | pairPos2 cov c1 c2 =>
      simp only [remapSubTable, subTableNames, List.map_append, List.map_map]
      refine congrArg₂ (· ++ ·) (congrArg₂ (· ++ ·) rfl ?_) ?_ <;>
        exact List.map_congr_left (fun p _ => rfl)
  | extensionPos inner ih => simp [remapSubTable, subTableNames, ih]

theorem lookupNames_remap (m : List (String × String)) (l : Lookup) :
    lookupNames (remapLookup m l) = (lookupNames l).map (rn m) := by
  simp only [remapLookup, lookupNames, List.map_map, List.map_flatten]
  refine congrArg List.flatten (List.map_congr_left (fun st _ => ?_))
  simp [Function.comp, subTableNames_remap]

theorem gposNames_remap (m : List (String × String)) (g : GposTable) :
    gposNames (remapGposTable m g) = (gposNames g).map (rn m) := by
  simp only [remapGposTable, gposNames, List.map_map, List.map_flatten]
  refine congrArg List.flatten (List.map_congr_left (fun l _ => ?_))
  simp [Function.comp, lookupNames_remap]

/-- Looking a donor glyph name up in the `inter_name_map` yields its
namespaced form. -/
theorem rn_mkInterNameMap {donorOrder : List String} {g : String}
    (hg : g ∈ donorOrder) :
    rn (mkInterNameMap donorOrder) g = mergeFontPfx ++ g := by
  induction donorOrder with
  | nil => cases hg
  | cons d rest ih =>
    rcases List.mem_cons.mp hg with h | h
    · subst h
      simp [rn, mkInterNameMap, List.find?]
    · by_cases hd : d = g
      · subst hd
        simp [rn, mkInterNameMap, List.find?]
      · have : (d == g) = false := by simp [hd]
        simpa [rn, mkInterNameMap, List.find?, this] using ih h

/-- Names reachable from the merged GPOS come either from the remapped donor
table or from the primary's own pre-merge table. -/
theorem gposNames_merge_mem (tg dg : GposTable) (m : List (String × String))
    (n : String)
    (hn : n ∈ gposNamesOpt (mergeInterFontGposTable ⟨some tg, false⟩ (some dg) m).gpos) :
    n ∈ gposNames (remapGposTable m dg) ∨ n ∈ gposNames tg := by
  rw [(merge_gpos_eq tg dg m).1] at hn
  simp only [gposNamesOpt, gposNames, List.mem_flatten, List.mem_map,
    List.mem_append, List.mem_reverse] at hn
  obtain ⟨names, ⟨l, hl, rfl⟩, hmem⟩ := hn
  rcases hl with hl | hl
  · exact Or.inl (by
      simp only [gposNames, List.mem_flatten, List.mem_map]
      exact ⟨lookupNames l, ⟨l, hl, rfl⟩, hmem⟩)
  · exact Or.inr (by
      simp only [gposNames, List.mem_flatten, List.mem_map]
      exact ⟨lookupNames l, ⟨l, hl, rfl⟩, hmem⟩)

/-- C2 (amended): assume each table references only glyphs of its own font's
glyph order.  After the merge (primary GPOS present, flag clear), every glyph
name reachable from the merged table's coverage lists, class-definition maps
and pair-second-glyph fields is in the combined glyph order, and every
reachable donor glyph name that is not also a primary glyph name is namespaced
(it is the prefixed image of some donor name).  Donor names shared with the
primary may remain reachable un-namespaced through the primary's own lookups;
the counterexample below shows the unrestricted original claim fails. -/
theorem merged_gpos_names_closed (tg dg : GposTable)
    (tgtOrder donorOrder : List String)
    (hT : ∀ n ∈ gposNames tg, n ∈ tgtOrder)
    (hD : ∀ n ∈ gposNames dg, n ∈ donorOrder) :
    ∀ n ∈ gposNamesOpt (mergeInterFontGposTable ⟨some tg, false⟩ (some dg)
        (mkInterNameMap donorOrder)).gpos,
      (n ∈ tgtOrder ++ donorOrder.map (fun g => mergeFontPfx ++ g)) ∧
      (n ∈ donorOrder → n ∉ tgtOrder →
        ∃ orig ∈ donorOrder, n = mergeFontPfx ++ orig) := by
  intro n hn
  rcases gposNames_merge_mem tg dg _ n hn with h | h
  · rw [gposNames_remap] at h
    obtain ⟨orig, horig, rfl⟩ := List.mem_map.mp h
    have hod := hD orig horig
    rw [rn_mkInterNameMap hod]
    refine ⟨List.mem_append.mpr (Or.inr (List.mem_map.mpr ⟨orig, hod, rfl⟩)), ?_⟩
    exact fun _ _ => ⟨orig, hod, rfl⟩
  · have := hT n h
    exact ⟨List.mem_append.mpr (Or.inl this), fun _ hnot => absurd this hnot⟩

/-- A concrete primary GPOS whose single lookup covers the glyph `a`. -/
def c2TgtGpos : GposTable :=
  { lookupList := ⟨[⟨1, [SubTable.singlePos ["a"]]⟩], 1⟩
    featureList := ⟨[⟨"kern", ⟨[0]⟩⟩], 1⟩
    scriptList := ⟨[⟨"DFLT", ⟨some ⟨[0]⟩, []⟩⟩], 1⟩ }

/-- A concrete donor GPOS whose single lookup also covers a glyph named `a`. -/
def c2DonorGpos : GposTable :=
  { lookupList := ⟨[⟨1, [SubTable.singlePos ["a"]]⟩], 1⟩
    featureList := ⟨[⟨"kern", ⟨[0]⟩⟩], 1⟩
    scriptList := ⟨[⟨"latn", ⟨some ⟨[0]⟩, []⟩⟩], 1⟩ }

/-- C2 counterexample: primary and donor both own a glyph named `a`; the
primary's own lookup keeps `a` reachable from the merged positioning table,
yet `a` is an original, non-namespaced donor glyph name — refuting the claim
that no such name remains reachable anywhere in the table. -/
theorem merged_gpos_original_donor_name_reachable :
    "a" ∈ gposNamesOpt (mergeInterFontGposTable ⟨some c2TgtGpos, false⟩
        (some c2DonorGpos) (mkInterNameMap ["a"])).gpos ∧
      "a" ∈ ["a"] ∧ ("a".startsWith mergeFontPfx) = false := by
  refine ⟨?_, by simp, by decide⟩
  rw [(merge_gpos_eq c2TgtGpos c2DonorGpos _).1]
  simp [gposNamesOpt, gposNames, lookupNames, subTableNames, c2TgtGpos,
    c2DonorGpos, remapGposTable, remapLookup, remapSubTable]

/-- C2 witness: the amended theorem applied to the concrete fonts above, at the
namespaced donor name reachable from the merged table. -/
theorem merged_gpos_names_closed_witness :
    ("inter_a" ∈ ["A", "a"] ++ ["a"].map (fun g => mergeFontPfx ++ g)) ∧
      ("inter_a" ∈ ["a"] → "inter_a" ∉ ["A", "a"] →
        ∃ orig ∈ ["a"], "inter_a" = mergeFontPfx ++ orig) :=
  merged_gpos_names_closed c2TgtGpos c2DonorGpos ["A", "a"] ["a"]
    (by intro n hn; simp [c2TgtGpos, gposNames, lookupNames, subTableNames] at hn;
        simp [hn])
    (by intro n hn; simp [c2DonorGpos, gposNames, lookupNames, subTableNames] at hn;
        simp [hn])
    "inter_a"
    (by rw [(merge_gpos_eq c2TgtGpos c2DonorGpos _).1]
        simp [gposNamesOpt, gposNames, lookupNames, subTableNames, c2TgtGpos,
          c2DonorGpos, remapGposTable, remapLookup, remapSubTable, rn,
          mkInterNameMap, mergeFontPfx])

/-! ## GSUB model: stylistic-set pruning, locl removal, table deletion -/

/-- The GSUB table: feature list and script list (lookups are never touched by
the pruning passes, so they are not modelled here). -/
structure GsubTable where
  featureList : FeatureList
  scriptList : ScriptList
  deriving DecidableEq, Repr

/-- The twenty reserved stylistic-set tags,
`[f'ss{str(i).zfill(2)}' for i in range(1, 21)]`. -/
def ssXXTags : List String :=
  (List.range 20).map
    (fun i => "ss" ++ (if i + 1 < 10 then "0" ++ toString (i + 1) else toString (i + 1)))

/-- `[i for i, f in enumerate(featureList.FeatureRecord) if f.FeatureTag in ssXX_tags]`. -/
def ssIndices (frs : List FeatureRecord) : List Nat :=
  (frs.enum.filter (fun p => p.2.featureTag ∈ ssXXTags)).map Prod.fst

/-- One language system after the stylistic-set pruning: indices that named a
stylistic-set feature are dropped, the surviving indices keep their values. -/
def filterLangSysSS (idxs : List Nat) (ls : LangSys) : LangSys :=
  ⟨ls.featureIndex.filter (fun idx => idx ∉ idxs)⟩

/-- `remove_stylistic_sets`: drop every `ss01`–`ss20` feature record, and drop
the corresponding indices from every language system's `FeatureIndex` list
(the default one included).  The stored counts are not updated, and the
surviving indices are not renumbered. -/
def removeStylisticSets (g : GsubTable) : GsubTable :=
  let ssXXIndices := ssIndices g.featureList.featureRecord
  { featureList :=
      { featureRecord :=
          (g.featureList.featureRecord.enum.filter
            (fun p => p.1 ∉ ssXXIndices)).map Prod.snd
        featureCount := g.featureList.featureCount }
    scriptList :=
      { scriptRecord := g.scriptList.scriptRecord.map (fun sr =>
          { sr with script :=
              { defaultLangSys :=
                  sr.script.defaultLangSys.map (filterLangSysSS ssXXIndices)
                langSysRecord := sr.script.langSysRecord.map
                  (fun lsr => ⟨filterLangSysSS ssXXIndices lsr.langSys⟩) } })
        scriptCount := g.scriptList.scriptCount } }

/-- `remove_locl_feature` restricted to the GSUB table: drop every `locl`
feature record and its indices from every language system; when no `locl`
feature exists, return unchanged (early return). -/
def removeLoclFeatureGsub (g : GsubTable) : GsubTable :=
  let loclIndices :=
    (g.featureList.featureRecord.enum.filter
      (fun p => p.2.featureTag == "locl")).map Prod.fst
  if loclIndices.isEmpty then g
  else
    { featureList :=
        { featureRecord :=
            (g.featureList.featureRecord.enum.filter
              (fun p => p.1 ∉ loclIndices)).map Prod.snd
          featureCount := g.featureList.featureCount }
      scriptList :=
        { scriptRecord := g.scriptList.scriptRecord.map (fun sr =>
            { sr with script :=
                { defaultLangSys := sr.script.defaultLangSys.map
                    (fun ls => ⟨ls.featureIndex.filter (fun idx => idx ∉ loclIndices)⟩)
                  langSysRecord := sr.script.langSysRecord.map
                    (fun lsr =>
                      ⟨⟨lsr.langSys.featureIndex.filter (fun idx => idx ∉ loclIndices)⟩⟩) } })
          scriptCount := g.scriptList.scriptCount } }

/-- The font as seen by the table-deletion phase of `build_font`: the tags of
the tables other than GSUB, and the GSUB table itself (present or not).
`apply_stylistic_sets` only rewrites glyph outlines and metrics — it never adds
or removes a table — so it does not appear in this table-level model. -/
structure BFont where
  otherTables : List String
  gsub : Option GsubTable
  deriving DecidableEq, Repr

/-- `remove_font_tables`: delete the STAT table, every `cv`-prefixed table and
the GSUB table (each when present). -/
def removeFontTablesF (f : BFont) : BFont :=
  { otherTables :=
      (f.otherTables.filter (fun t => t != "STAT")).filter
        (fun t => !(t.startsWith "cv"))
    gsub := none }

/-- `remove_stylistic_sets` at font level: no GSUB table means skip. -/
def removeStylisticSetsF (f : BFont) : BFont :=
  match f.gsub with
  | none => f
  | some g => { f with gsub := some (removeStylisticSets g) }

/-- `remove_locl_feature` at font level: no GSUB table means skip. -/
def removeLoclFeatureF (f : BFont) : BFont :=
  match f.gsub with
  | none => f
  | some g => { f with gsub := some (removeLoclFeatureGsub g) }

/-! ## C5: the stylistic-set pruning pass -/

/-- A concrete GSUB: feature 0 is `ss01`, feature 1 is `kern`, and the default
language system references both. -/
def c5Gsub : GsubTable :=
  { featureList := ⟨[⟨"ss01", ⟨[0]⟩⟩, ⟨"kern", ⟨[1]⟩⟩], 2⟩
    scriptList := ⟨[⟨"DFLT", ⟨some ⟨[0, 1]⟩, []⟩⟩], 1⟩ }

/-- C5 counterexample: pruning `c5Gsub` shrinks the feature list to one record,
but the surviving feature index 1 is not renumbered and is out of range for the
shrunken list — refuting the claim that every remaining index is valid. -/
theorem removeStylisticSets_leaves_dangling_index :
    (removeStylisticSets c5Gsub).featureList.featureRecord.length = 1 ∧
      ∃ sr ∈ (removeStylisticSets c5Gsub).scriptList.scriptRecord,
        ∃ ls, sr.script.defaultLangSys = some ls ∧ 1 ∈ ls.featureIndex ∧
          ¬ 1 < (removeStylisticSets c5Gsub).featureList.featureRecord.length := by
  decide

/-- C5 (amended): after the unconditional pruning pass, zero feature records
with a reserved `ss01`–`ss20` tag remain, and every surviving feature index in
every script/language-system list (default included) is an index that did not
name a stylistic-set feature — kept with its original, un-renumbered value, so
it may exceed the shrunken feature list's length (see the counterexample). -/
theorem removeStylisticSets_spec (g : GsubTable) :
    (∀ fr ∈ (removeStylisticSets g).featureList.featureRecord,
        fr.featureTag ∉ ssXXTags) ∧
    (∀ sr ∈ (removeStylisticSets g).scriptList.scriptRecord, ∀ ls : LangSys,
        (sr.script.defaultLangSys = some ls ∨
          ∃ lsr ∈ sr.script.langSysRecord, lsr.langSys = ls) →
        ∀ idx ∈ ls.featureIndex,
          idx ∉ ssIndices g.featureList.featureRecord ∧
          ∀ h : idx < g.featureList.featureRecord.length,
            (g.featureList.featureRecord.get ⟨idx, h⟩).featureTag ∉ ssXXTags) := by
  constructor
  · intro fr hfr
    simp only [removeStylisticSets, List.mem_map, List.mem_filter] at hfr
    obtain ⟨p, ⟨hpmem, hpdec⟩, rfl⟩ := hfr
    intro htag
    have : p.1 ∈ ssIndices g.featureList.featureRecord :=
      List.mem_map.mpr ⟨p, List.mem_filter.mpr ⟨hpmem, by simpa using htag⟩, rfl⟩
    simp [this] at hpdec
  · intro sr hsr ls hls idx hidx
    simp only [removeStylisticSets, List.mem_map] at hsr
    obtain ⟨sr0, _, rfl⟩ := hsr
    have hidx' : idx ∈ (filterLangSysSS
        (ssIndices g.featureList.featureRecord) ls).featureIndex →
        idx ∉ ssIndices g.featureList.featureRecord := by
      intro hm
      simp only [filterLangSysSS, List.mem_filter] at hm
      simpa using hm.2
    have hnot : idx ∉ ssIndices g.featureList.featureRecord := by
      rcases hls with hdef | ⟨lsr, hlsr, hlseq⟩
      · simp only [Option.map_eq_some'] at hdef
        obtain ⟨ls0, _, rfl⟩ := hdef
        simp only [filterLangSysSS, List.mem_filter] at hidx
        simpa using hidx.2
      · simp only [List.mem_map] at hlsr
        obtain ⟨lsr0, _, rfl⟩ := hlsr
        subst hlseq
        simp only [filterLangSysSS, List.mem_filter] at hidx
        simpa using hidx.2
    refine ⟨hnot, fun h htag => ?_⟩
    apply hnot
    refine List.mem_map.mpr ⟨(idx, g.featureList.featureRecord.get ⟨idx, h⟩),
      List.mem_filter.mpr ⟨?_, by simpa using htag⟩, rfl⟩
    have hlen : idx < g.featureList.featureRecord.enum.length := by
      simpa using h
    have henum := List.getElem_enum g.featureList.featureRecord
      (i := idx) (h := hlen)
    have hmem2 : g.featureList.featureRecord.enum[idx] ∈
        g.featureList.featureRecord.enum := List.getElem_mem hlen
    rw [henum] at hmem2
    simpa [List.get_eq_getElem] using hmem2

/-- C5 witness: the amended theorem applied to `c5Gsub`; the surviving `kern`
record's tag is not a reserved stylistic-set tag. -/
theorem removeStylisticSets_spec_witness :
    (⟨"kern", ⟨[1]⟩⟩ : FeatureRecord).featureTag ∉ ssXXTags :=
  (removeStylisticSets_spec c5Gsub).1 ⟨"kern", ⟨[1]⟩⟩ (by decide)

/-! ## C10: GSUB deletion makes the locl pass a no-op -/

/-- C10: in the `build_font` order, `remove_font_tables` (run right after the
stylistic-set pruning) deletes the GSUB table unconditionally, together with
the STAT table and every `cv`-prefixed table; the subsequent
`remove_locl_feature` pass therefore finds no GSUB table and is the identity,
and the resulting font carries no substitution table at all. -/
theorem remove_tables_kills_gsub_locl_noop (f : BFont) :
    (removeFontTablesF (removeStylisticSetsF f)).gsub = none ∧
    (removeFontTablesF (removeStylisticSetsF f)).otherTables.all
      (fun t => (t != "STAT") && !(t.startsWith "cv")) = true ∧
    removeLoclFeatureF (removeFontTablesF (removeStylisticSetsF f)) =
      removeFontTablesF (removeStylisticSetsF f) := by
  refine ⟨rfl, ?_, rfl⟩
  rw [List.all_eq_true]
  intro t ht
  simp only [removeFontTablesF, List.mem_filter] at ht
  simp [ht.1.2, ht.2]

/-! ## C4: the full-width width-adjustment pass (`process_glyphs`) -/

/-- Python's `int()` applied to a (non-integral) number: truncation toward
zero. -/
def pyInt (q : ℚ) : Int :=
  if 0 ≤ q then ⌊q⌋ else ⌈q⌉

/-- The font state read and written by `process_glyphs`: the glyph order and
the horizontal-metrics table mapping each glyph name to (advance width, left
side-bearing).  The pass also redraws each processed glyph's outline through a
`Transform().translate(0, 0)` — a geometric identity — so outlines are not
part of this model. -/
structure PGFont where
  glyphOrder : List String
  hmtx : String → Int × Int

/-- One iteration of the `process_glyphs` loop: a glyph with advance width at
least 1000 whose name is not namespaced gets
`hmtx[g] = (width + expand*2, lsb + expand)` with
`expand = int(width * pct / 2)` and is recorded as processed; every other
glyph is recorded as unprocessed. -/
def processGlyphStep (pct : ℚ) (st : (String → Int × Int) × List String × List String)
    (g : String) : (String → Int × Int) × List String × List String :=
  let w := (st.1 g).1
  let lsb := (st.1 g).2
  if 1000 ≤ w ∧ ¬(g.startsWith mergeFontPfx) = true then
    let expand := pyInt ((w : ℚ) * pct / 2)
    (fun x => if x = g then (w + expand * 2, lsb + expand) else st.1 x,
     st.2.1 ++ [g], st.2.2)
  else
    (st.1, st.2.1, st.2.2 ++ [g])

/-- `process_glyphs(font, cjk_width_extend_percent)`: fold the step above over
the glyph order, returning the updated metrics and the processed/unprocessed
name sets (modelled as lists). -/
def processGlyphs (f : PGFont) (pct : ℚ) :
    (String → Int × Int) × List String × List String :=
  f.glyphOrder.foldl (processGlyphStep pct) (f.hmtx, [], [])

/-- Names keep their metrics under the fold while they are not in the
remaining glyph list. -/
theorem processGlyphs_fold_notmem (pct : ℚ) (l : List String)
    (st : (String → Int × Int) × List String × List String) (g : String)
    (hg : g ∉ l) : (l.foldl (processGlyphStep pct) st).1 g = st.1 g := by
  induction l generalizing st with
  | nil => rfl
  | cons h t ih =>
    have hne : g ≠ h := fun e => hg (e ▸ List.mem_cons_self h t)
    have ht : g ∉ t := fun m => hg (List.mem_cons_of_mem h m)
    rw [List.foldl_cons, ih _ ht]
    simp only [processGlyphStep]
    split <;> simp [hne]

/-- A concrete font: one full-width glyph of width 1000 and left side-bearing
100. -/
def c4Font : PGFont :=
  { glyphOrder := ["han"], hmtx := fun _ => (1000, 100) }

/-- C4 counterexample: with fraction `1/5`, `expand = int(1000*(1/5)/2) = 100`;
the code sets the new left side-bearing to `lsb + expand = 200`, not
`lsb + floor(expand/2) = 150` as the claim states (the computed
`shift = int(expand/2)` is never used), refuting the claimed metric formula. -/
theorem processGlyphs_lsb_formula_fails :
    (processGlyphs c4Font (1/5)).1 "han" = (1200, 200) ∧
      (processGlyphs c4Font (1/5)).1 "han" ≠
        (1000 + 2 * pyInt ((1000 : ℚ) * (1/5) / 2),
         100 + pyInt ((pyInt ((1000 : ℚ) * (1/5) / 2) : ℚ) / 2)) := by
  have hsw : ("han".startsWith mergeFontPfx) = false := by decide
  have hr : (processGlyphs c4Font (1/5)).1 "han" = (1200, 200) := by
    simp [processGlyphs, processGlyphStep, c4Font, hsw]
    norm_num [pyInt]
  refine ⟨hr, ?_⟩
  rw [hr]
  have h1 : pyInt ((1000 : ℚ) * (1/5) / 2) = 100 := by norm_num [pyInt]
  rw [h1]
  have h2 : pyInt (((100 : Int) : ℚ) / 2) = 50 := by norm_num [pyInt]
  rw [h2]
  decide

/-- C4 (amended): for a glyph of the order (with no duplicate names), the pass
leaves the metrics unchanged when the advance width is below 1000 or the name
is namespaced, and otherwise sets them to
`(width + 2*expand, lsb + expand)` with `expand = int(width*fraction/2)` —
the left side-bearing grows by the full `expand`, not by half of it. -/
theorem processGlyphs_metrics (f : PGFont) (pct : ℚ) (g : String)
    (hnd : f.glyphOrder.Nodup) (hg : g ∈ f.glyphOrder) :
    (processGlyphs f pct).1 g =
      (if 1000 ≤ (f.hmtx g).1 ∧ g.startsWith mergeFontPfx = false then
        ((f.hmtx g).1 + pyInt (((f.hmtx g).1 : ℚ) * pct / 2) * 2,
         (f.hmtx g).2 + pyInt (((f.hmtx g).1 : ℚ) * pct / 2))
      else f.hmtx g) := by
  obtain ⟨l1, l2, hsplit⟩ := List.append_of_mem hg
  have hnd' : (l1 ++ g :: l2).Nodup := hsplit ▸ hnd
  rcases List.nodup_append.mp hnd' with ⟨-, hcons, hdisj⟩
  have hg1 : g ∉ l1 := fun m => hdisj m (List.mem_cons_self g l2)
  have hg2 : g ∉ l2 := (List.nodup_cons.mp hcons).1
  unfold processGlyphs
  rw [hsplit, List.foldl_append, List.foldl_cons,
    processGlyphs_fold_notmem pct l2 _ g hg2]
  have h1 := processGlyphs_fold_notmem pct l1 (f.hmtx, [], []) g hg1
  by_cases hc : 1000 ≤ (f.hmtx g).1 ∧ g.startsWith mergeFontPfx = false
  · simp [processGlyphStep, h1, hc]
  · simp only [processGlyphStep, h1]
    rw [if_neg (by simpa using hc), if_neg (by simpa using hc)]
    exact h1

/-- C4 witness: the amended metric formula applied to the concrete full-width
glyph of `c4Font` at fraction `1/5`. -/
theorem processGlyphs_metrics_witness :
    (processGlyphs c4Font (1/5)).1 "han" =
      (if 1000 ≤ (c4Font.hmtx "han").1 ∧
          "han".startsWith mergeFontPfx = false then
        ((c4Font.hmtx "han").1 +
           pyInt (((c4Font.hmtx "han").1 : ℚ) * (1/5) / 2) * 2,
         (c4Font.hmtx "han").2 +
           pyInt (((c4Font.hmtx "han").1 : ℚ) * (1/5) / 2))
      else c4Font.hmtx "han") :=
  processGlyphs_metrics c4Font (1/5) "han" (by decide) (by decide)

/-! ## C3: the character-map rewrite of `merge_inter_font`

Per-table character maps are modelled as lookup functions `Nat → Option String`
(the code only reads entries by code point and writes single entries); the
donor's unioned character map, which the code iterates over, is an explicit
association list whose keys are distinct (it comes from a Python dict). -/

/-- One encoding table of the `cmap` table: its format, whether it is a
Unicode table, and its code-point-to-glyph mapping. -/
structure CmapTable where
  format : Nat
  isUnicode : Bool
  cmap : Nat → Option String

/-- `target_cmap = {}; for table in tables: target_cmap.update(table.cmap)`:
later tables override earlier ones, so a lookup takes the last table that
covers the code point. -/
def cmapUnionLookup (tables : List (Nat → Option String)) (cp : Nat) : Option String :=
  tables.foldl (fun acc t => match t cp with | some g => some g | none => acc) none

/-- `(cp < 0x20) or (0x7F <= cp < 0xA0)`: the skipped control ranges. -/
def isControlCp (cp : Nat) : Bool :=
  decide (cp < 0x20) || (decide (0x7F ≤ cp) && decide (cp < 0xA0))

/-- The full-width protection test:
`if target_glyph_name and target_glyph_name in target_hmtx.metrics:` followed
by `if width >= 1000: continue` (an empty glyph name is falsy in Python). -/
def cmapSkip (targetCmap : Nat → Option String) (hmtx : String → Option (Int × Int))
    (cp : Nat) : Bool :=
  match targetCmap cp with
  | some tg =>
      (tg != "") &&
        (match hmtx tg with
         | some wl => decide (1000 ≤ wl.1)
         | none => false)
  | none => false

/-- `table.cmap[cp] = name`: write one entry of an encoding table. -/
def setCmap (t : CmapTable) (cp : Nat) (g : String) : CmapTable :=
  { t with cmap := fun x => if x = cp then some g else t.cmap x }

/-- How one encoding table receives the update for one code point: Unicode
format-4 tables only within the BMP (`cp <= 0xFFFF`), Unicode format-12 tables
always, every other table untouched. -/
def updateCmapTable (cp : Nat) (g : String) (t : CmapTable) : CmapTable :=
  if t.isUnicode then
    if t.format = 4 then (if cp ≤ 0xFFFF then setCmap t cp g else t)
    else if t.format = 12 then setCmap t cp g
    else t
  else t

/-- The effect of one donor character-map entry on one target encoding table:
control code points are skipped, full-width-protected code points are skipped,
otherwise the table is updated to the namespaced donor glyph
`inter_name_map[inter_glyph_name]`. -/
def cmapElemStep (targetCmap : Nat → Option String) (hmtx : String → Option (Int × Int))
    (nameMap : List (String × String)) (p : Nat × String) (t : CmapTable) : CmapTable :=
  if isControlCp p.1 then t
  else if cmapSkip targetCmap hmtx p.1 then t
  else updateCmapTable p.1 (rn nameMap p.2) t

/-- The effect of one donor character-map entry on the whole list of target
encoding tables. -/
def cmapRewriteStep (targetCmap : Nat → Option String) (hmtx : String → Option (Int × Int))
    (nameMap : List (String × String)) (tabs : List CmapTable) (p : Nat × String) :
    List CmapTable :=
  if isControlCp p.1 then tabs
  else if cmapSkip targetCmap hmtx p.1 then tabs
  else tabs.map (updateCmapTable p.1 (rn nameMap p.2))

/-- Step 2 of `merge_inter_font`: iterate over the donor's unioned character
map, skipping control ranges and full-width-protected code points (the
protection consults the target character map as unioned *before* the loop),
updating every target encoding table within its range capability. -/
def cmapRewrite (tgtTables : List CmapTable) (hmtx : String → Option (Int × Int))
    (nameMap : List (String × String)) (interCmap : List (Nat × String)) :
    List CmapTable :=
  interCmap.foldl
    (cmapRewriteStep (cmapUnionLookup (tgtTables.map (fun t => t.cmap))) hmtx nameMap)
    tgtTables

/-- Folding the per-element step over a donor character map. -/
def cmapElemFold (targetCmap : Nat → Option String) (hmtx : String → Option (Int × Int))
    (nameMap : List (String × String)) (l : List (Nat × String)) (t : CmapTable) : CmapTable :=
  l.foldl (fun t p => cmapElemStep targetCmap hmtx nameMap p t) t

theorem cmapElemStep_frame (tc : Nat → Option String) (hm : String → Option (Int × Int))
    (nm : List (String × String)) (p : Nat × String) (t : CmapTable) :
    (cmapElemStep tc hm nm p t).format = t.format ∧
      (cmapElemStep tc hm nm p t).isUnicode = t.isUnicode := by
  simp only [cmapElemStep, updateCmapTable, setCmap]
  repeat' split
  all_goals exact ⟨rfl, rfl⟩

theorem cmapElemStep_other (tc : Nat → Option String) (hm : String → Option (Int × Int))
    (nm : List (String × String)) (p : Nat × String) (t : CmapTable) (cp : Nat)
    (hne : p.1 ≠ cp) :
    (cmapElemStep tc hm nm p t).cmap cp = t.cmap cp := by
  have h : (cp = p.1) = False := by
    simp only [eq_iff_iff, iff_false]
    exact fun e => hne e.symm
  simp only [cmapElemStep, updateCmapTable, setCmap]
  repeat' split
  all_goals simp [h]

theorem cmapElemStep_entry (tc : Nat → Option String) (hm : String → Option (Int × Int))
    (nm : List (String × String)) (cp : Nat) (g : String) (t : CmapTable)
    (hctrl : isControlCp cp = false) :
    (cmapElemStep tc hm nm (cp, g) t).cmap cp =
      (if cmapSkip tc hm cp = true then t.cmap cp
       else if t.isUnicode = true ∧ (t.format = 4 ∧ cp ≤ 0xFFFF ∨ t.format = 12) then
         some (rn nm g)
       else t.cmap cp) := by
  by_cases hsk : cmapSkip tc hm cp = true
  · simp [cmapElemStep, hctrl, hsk]
  · simp only [cmapElemStep, hctrl, hsk, Bool.false_eq_true, if_false]
    unfold updateCmapTable setCmap
    by_cases hu : t.isUnicode = true
    · by_cases h4 : t.format = 4
      · by_cases hle : cp ≤ 0xFFFF
        · simp [hu, h4, hle]
        · simp [hu, h4, hle]
      · by_cases h12 : t.format = 12 <;> simp [hu, h4, h12]
    · simp [hu]

theorem cmapRewriteStep_as_map (tc : Nat → Option String)
    (hm : String → Option (Int × Int)) (nm : List (String × String))
    (tabs : List CmapTable) (p : Nat × String) :
    cmapRewriteStep tc hm nm tabs p = tabs.map (cmapElemStep tc hm nm p) := by
  by_cases hc : isControlCp p.1 = true
  · have hid : cmapElemStep tc hm nm p = fun t => t := by
      funext t
      simp [cmapElemStep, hc]
    simp [cmapRewriteStep, hc, hid]
  · by_cases hs : cmapSkip tc hm p.1 = true
    · have hid : cmapElemStep tc hm nm p = fun t => t := by
        funext t
        simp [cmapElemStep, hc, hs]
      simp [cmapRewriteStep, hc, hs, hid]
    · simp [cmapRewriteStep, cmapElemStep, hc, hs]

theorem cmapRewrite_fold_getElem (tc : Nat → Option String)
    (hm : String → Option (Int × Int)) (nm : List (String × String))
    (l : List (Nat × String)) (tabs : List CmapTable) (i : Nat) :
    (l.foldl (cmapRewriteStep tc hm nm) tabs)[i]? =
      (tabs[i]?).map (cmapElemFold tc hm nm l) := by
  induction l generalizing tabs with
  | nil =>
    cases h : tabs[i]? <;> simp [cmapElemFold, h]
  | cons p rest ih =>
    rw [List.foldl_cons, ih, cmapRewriteStep_as_map, List.getElem?_map]
    cases h : tabs[i]? <;> simp [cmapElemFold, h]

theorem cmapElemFold_frame (tc : Nat → Option String) (hm : String → Option (Int × Int))
    (nm : List (String × String)) (l : List (Nat × String)) (t : CmapTable) :
    (cmapElemFold tc hm nm l t).format = t.format ∧
      (cmapElemFold tc hm nm l t).isUnicode = t.isUnicode := by
  induction l generalizing t with
  | nil => exact ⟨rfl, rfl⟩
  | cons p rest ih =>
    have hstep := cmapElemStep_frame tc hm nm p t
    have := ih (cmapElemStep tc hm nm p t)
    exact ⟨this.1.trans hstep.1, this.2.trans hstep.2⟩

theorem cmapElemFold_other (tc : Nat → Option String) (hm : String → Option (Int × Int))
    (nm : List (String × String)) (l : List (Nat × String)) (t : CmapTable) (cp : Nat)
    (hcp : cp ∉ l.map Prod.fst) :
    (cmapElemFold tc hm nm l t).cmap cp = t.cmap cp := by
  induction l generalizing t with
  | nil => rfl
  | cons p rest ih =>
    have hne : p.1 ≠ cp := by
      intro e
      exact hcp (List.mem_cons.mpr (Or.inl e.symm))
    have hrest : cp ∉ rest.map Prod.fst := by
      intro m
      exact hcp (List.mem_cons.mpr (Or.inr m))
    have := ih (cmapElemStep tc hm nm p t) hrest
    exact this.trans (cmapElemStep_other tc hm nm p t cp hne)

/-- C3 (amended): for every code point in the donor's character map (whose
keys, coming from a Python dict, are distinct) outside the control ranges, the
character-map rewrite leaves each target encoding table unchanged at that code
point when the primary's existing glyph there has advance width **at least**
1000 (the code tests `width >= 1000`, not `== 1000`), and otherwise rewrites
the mapping to the namespaced donor glyph in every Unicode encoding table
within its code-point-range capability (format 4 only up to `0xFFFF`,
format 12 always), leaving other tables unchanged. -/
theorem cmapRewrite_spec (tgtTables : List CmapTable)
    (hmtx : String → Option (Int × Int)) (donorOrder : List String)
    (interCmap : List (Nat × String)) (hnd : (interCmap.map Prod.fst).Nodup)
    (cp : Nat) (g : String) (hmem : (cp, g) ∈ interCmap) (hg : g ∈ donorOrder)
    (hctrl : isControlCp cp = false) :
    ∀ (i : Nat) (t0 : CmapTable), tgtTables[i]? = some t0 →
      ∃ t1, (cmapRewrite tgtTables hmtx (mkInterNameMap donorOrder) interCmap)[i]? =
          some t1 ∧
        t1.format = t0.format ∧ t1.isUnicode = t0.isUnicode ∧
        t1.cmap cp =
          (if cmapSkip (cmapUnionLookup (tgtTables.map (fun t => t.cmap))) hmtx cp = true
           then t0.cmap cp
           else if t0.isUnicode = true ∧ (t0.format = 4 ∧ cp ≤ 0xFFFF ∨ t0.format = 12)
           then some (mergeFontPfx ++ g)
           else t0.cmap cp) := by
  intro i t0 ht0
  set tc := cmapUnionLookup (tgtTables.map (fun t => t.cmap)) with htc
  set nm := mkInterNameMap donorOrder with hnm
  obtain ⟨l1, l2, hsplit⟩ := List.append_of_mem hmem
  have hkeys : ((l1 ++ (cp, g) :: l2).map Prod.fst).Nodup := by
    rw [← hsplit]; exact hnd
  rw [List.map_append, List.map_cons] at hkeys
  rcases List.nodup_append.mp hkeys with ⟨-, hcons, hdisj⟩
  have hcp1 : cp ∉ l1.map Prod.fst := fun m => hdisj m (List.mem_cons_self _ _)
  have hcp2 : cp ∉ l2.map Prod.fst := (List.nodup_cons.mp hcons).1
  refine ⟨cmapElemFold tc hmtx nm interCmap t0, ?_, ?_, ?_, ?_⟩
  · rw [cmapRewrite, cmapRewrite_fold_getElem, ht0]
    rfl
  · exact (cmapElemFold_frame tc hmtx nm interCmap t0).1
  · exact (cmapElemFold_frame tc hmtx nm interCmap t0).2
  · rw [hsplit]
    have hstep : cmapElemFold tc hmtx nm (l1 ++ (cp, g) :: l2) t0 =
        cmapElemFold tc hmtx nm l2
          (cmapElemStep tc hmtx nm (cp, g) (cmapElemFold tc hmtx nm l1 t0)) := by
      simp [cmapElemFold, List.foldl_append, List.foldl_cons]
    rw [hstep]
    set t1 := cmapElemFold tc hmtx nm l1 t0 with ht1
    have hf1 := cmapElemFold_frame tc hmtx nm l1 t0
    have ho1 := cmapElemFold_other tc hmtx nm l1 t0 cp hcp1
    rw [cmapElemFold_other tc hmtx nm l2 _ cp hcp2]
    rw [cmapElemStep_entry tc hmtx nm cp g t1 hctrl]
    rw [hf1.1, hf1.2, ho1]
    rw [rn_mkInterNameMap hg]

/-- The concrete target encoding table of the C3 scenario: a Unicode format-4
table mapping `U+0041` to the glyph `X`. -/
def c3Table : CmapTable :=
  { format := 4, isUnicode := true
    cmap := fun x => if x = 0x41 then some "X" else none }

/-- A metrics table giving the glyph `X` advance width 1200. -/
def c3HmtxWide : String → Option (Int × Int) :=
  fun s => if s = "X" then some (1200, 0) else none

/-- A metrics table giving the glyph `X` advance width 500. -/
def c3HmtxNarrow : String → Option (Int × Int) :=
  fun s => if s = "X" then some (500, 0) else none

/-- C3 counterexample: the donor maps `U+0041` (non-control) to glyph `A`, the
primary maps it to glyph `X` of advance width 1200 ≠ 1000; the code skips the
rewrite (its test is `width >= 1000`), leaving the mapping at `X` instead of
rewriting it to `inter_A` as the claim ("exactly 1000, rewritten in every
other case") requires. -/
theorem cmapRewrite_width_1200_not_rewritten :
    c3HmtxWide "X" = some (1200, 0) ∧ (1200 : Int) ≠ 1000 ∧
      isControlCp 0x41 = false ∧ (0x41, "A") ∈ [((0x41 : Nat), "A")] ∧
      ∃ t1, (cmapRewrite [c3Table] c3HmtxWide (mkInterNameMap ["A"])
          [(0x41, "A")])[0]? = some t1 ∧
        t1.cmap 0x41 = some "X" ∧ some "X" ≠ some (mergeFontPfx ++ "A") := by
  refine ⟨rfl, by decide, by decide, by simp, ?_⟩
  refine ⟨c3Table, ?_, by simp [c3Table], by decide⟩
  simp [cmapRewrite, cmapRewriteStep, cmapSkip, cmapUnionLookup, c3Table,
    c3HmtxWide, isControlCp]

/-- C3 witness: the amended theorem applied to the same scenario with the
primary glyph narrowed to width 500: the rewrite goes through and the format-4
table now maps `U+0041` to the namespaced donor glyph. -/
theorem cmapRewrite_spec_witness :
    ∃ t1, (cmapRewrite [c3Table] c3HmtxNarrow (mkInterNameMap ["A"])
        [(0x41, "A")])[0]? = some t1 ∧
      t1.format = c3Table.format ∧ t1.isUnicode = c3Table.isUnicode ∧
      t1.cmap 0x41 =
        (if cmapSkip (cmapUnionLookup ([c3Table].map (fun t => t.cmap)))
            c3HmtxNarrow 0x41 = true
         then c3Table.cmap 0x41
         else if c3Table.isUnicode = true ∧
            (c3Table.format = 4 ∧ 0x41 ≤ 0xFFFF ∨ c3Table.format = 12)
         then some (mergeFontPfx ++ "A")
         else c3Table.cmap 0x41) :=
  cmapRewrite_spec [c3Table] c3HmtxNarrow ["A"] [(0x41, "A")]
    (by simp) 0x41 "A" (by simp) (by simp) (by decide) 0 c3Table rfl

/-! ## `extract_font.py`: glyph transform, GPOS transform, instancing pipeline -/

/-- A fontTools `Transform` `(xx, xy, yx, yy, dx, dy)`. -/
structure Affine where
  xx : ℚ
  xy : ℚ
  yx : ℚ
  yy : ℚ
  dx : ℚ
  dy : ℚ
  deriving DecidableEq, Repr

/-- fontTools `otRound`: round half away from zero upward, `floor(x + 0.5)`
(applied by `TTGlyphPen` when storing transformed coordinates). -/
def otRound (q : ℚ) : Int := ⌊q + 1/2⌋

/-- `Transform.transformPoint`: `(x, y) ↦ (xx*x + yx*y + dx, xy*x + yy*y + dy)`,
rounded to integer font units by the pen. -/
def applyAffinePoint (t : Affine) (p : Int × Int) : Int × Int :=
  (otRound (t.xx * p.1 + t.yx * p.2 + t.dx), otRound (t.xy * p.1 + t.yy * p.2 + t.dy))

/-- A TrueType glyph: either simple (a list of contours, each a list of
points) or composite (component references with their transforms). -/
inductive TTGlyph where
  | simple (contours : List (List (Int × Int)))
  | comp (components : List (String × Affine))
  deriving DecidableEq, Repr

/-- `glyph.isComposite()`. -/
def TTGlyph.isComp : TTGlyph → Bool
  | .simple _ => false
  | .comp _ => true

/-- Python's `int(round(x))`: banker's rounding, halves to even. -/
def pyRound (q : ℚ) : Int :=
  if q - ⌊q⌋ < 1/2 then ⌊q⌋
  else if q - ⌊q⌋ > 1/2 then ⌊q⌋ + 1
  else if Even ⌊q⌋ then ⌊q⌋ else ⌊q⌋ + 1

/-- A GPOS `ValueRecord` with its four optional adjustment fields. -/
structure ExValueRecord where
  xPlacement : Option Int
  yPlacement : Option Int
  xAdvance : Option Int
  yAdvance : Option Int
  deriving DecidableEq, Repr

/-- PairPos Format 1 `PairValueRecord` with its two value records. -/
structure ExPairValueRecord where
  secondGlyph : String
  value1 : Option ExValueRecord
  value2 : Option ExValueRecord
  deriving DecidableEq, Repr

/-- PairPos Format 1 `PairSet`. -/
structure ExPairSet where
  pairValueRecord : List ExPairValueRecord
  deriving DecidableEq, Repr

/-- PairPos Format 2 `Class2Record`. -/
structure ExClass2Record where
  value1 : Option ExValueRecord
  value2 : Option ExValueRecord
  deriving DecidableEq, Repr

/-- PairPos Format 2 `Class1Record`. -/
structure ExClass1Record where
  class2Record : List ExClass2Record
  deriving DecidableEq, Repr

/-- GPOS subtables of the adjustment lookups (types 1 and 2, both formats).
The attachment lookups (types 3–6) receive an analogous anchor adjustment in
`apply_gpos_transform`; no claim under verification inspects them, so the
modelled positioning tables consist of adjustment lookups. -/
inductive ExSubTable where
  | singleF1 (coverage : List String) (value : Option ExValueRecord)
  | singleF2 (coverage : List String) (value : List (Option ExValueRecord))
  | pairF1 (coverage : List String) (pairSet : List ExPairSet)
  | pairF2 (coverage : List String) (class1Record : List ExClass1Record)
  deriving DecidableEq, Repr

/-- A GPOS lookup for the transform pass. -/
structure ExLookup where
  lookupType : Nat
  subTable : List ExSubTable
  deriving DecidableEq, Repr

/-- The GPOS table as the transform pass sees it: its lookups. -/
structure ExGpos where
  lookup : List ExLookup
  deriving DecidableEq, Repr

/-- `adjust_value_record`: x-placement gets `scaleX` and `translateX`,
y-placement `scaleY`/`translateY`, x/y-advance only the scales. -/
def adjustValueRecord (sx sy tx ty : ℚ) (vr : ExValueRecord) : ExValueRecord :=
  { xPlacement := vr.xPlacement.map (fun v => pyRound ((v : ℚ) * sx + tx))
    yPlacement := vr.yPlacement.map (fun v => pyRound ((v : ℚ) * sy + ty))
    xAdvance := vr.xAdvance.map (fun v => pyRound ((v : ℚ) * sx))
    yAdvance := vr.yAdvance.map (fun v => pyRound ((v : ℚ) * sy)) }

/-- `adjust_value_record` applied through `may be None`. -/
def adjustOptVR (sx sy tx ty : ℚ) (o : Option ExValueRecord) : Option ExValueRecord :=
  o.map (adjustValueRecord sx sy tx ty)

/-- `apply_gpos_transform` on one subtable, dispatching on the lookup type as
the code does (`if ltype == 1: ... elif ltype == 2: ...`, other types fall
through unchanged here). -/
def applyGposSubTable (sx sy tx ty : ℚ) (ltype : Nat) (st : ExSubTable) : ExSubTable :=
  if ltype = 1 then
    match st with
    | .singleF1 cov v => .singleF1 cov (adjustOptVR sx sy tx ty v)
    | .singleF2 cov vs => .singleF2 cov (vs.map (adjustOptVR sx sy tx ty))
    | st => st
  else if ltype = 2 then
    match st with
    | .pairF1 cov ps =>
        .pairF1 cov (ps.map (fun s =>
          ⟨s.pairValueRecord.map (fun p =>
            ⟨p.secondGlyph, adjustOptVR sx sy tx ty p.value1,
             adjustOptVR sx sy tx ty p.value2⟩)⟩))
    | .pairF2 cov c1s =>
        .pairF2 cov (c1s.map (fun c1 =>
          ⟨c1.class2Record.map (fun c2 =>
            ⟨adjustOptVR sx sy tx ty c2.value1, adjustOptVR sx sy tx ty c2.value2⟩)⟩))
    | st => st
  else st

/-- `apply_gpos_transform`: scale/translate components applied to every value
record of the adjustment lookups (skew/rotation ignored). -/
def applyGposTransform (t : Affine) (g : ExGpos) : ExGpos :=
  { lookup := g.lookup.map (fun l =>
      { l with subTable :=
          l.subTable.map (applyGposSubTable t.xx t.yy t.dx t.dy l.lookupType) }) }

/-- The font as `extract_font` sees it: variability flag (`'fvar' in font`),
glyph order, `glyf`, optional `hmtx` (with per-glyph presence), optional GPOS. -/
structure XFont where
  fvar : Bool
  glyphOrder : List String
  glyf : String → TTGlyph
  hmtx : Option (String → Option (Int × Int))
  gpos : Option ExGpos

/-- `'hmtx' in font and glyph_name in font['hmtx'].metrics` combined lookup. -/
def hmtxAt (f : XFont) (g : String) : Option (Int × Int) :=
  match f.hmtx with
  | none => none
  | some h => h g

/-- Drawing a simple glyph through `TransformPen` into a `TTGlyphPen`. -/
def transformContours (t : Affine) (cs : List (List (Int × Int))) :
    List (List (Int × Int)) :=
  cs.map (fun c => c.map (applyAffinePoint t))

/-- The body of one `apply_glyph_transform` loop iteration for a simple glyph
`gname` with contours `cs`: in CJK mode, glyphs without an `hmtx` entry or
with advance width other than 1000 are skipped (`continue`); otherwise the
outline is replaced by its transform when the glyph has contours, and — only
outside CJK mode — the advance width and left side-bearing are scaled by the
x-scale coefficient. -/
def glyphTransformStep (t : Affine) (cjk : Bool) (f : XFont) (gname : String)
    (cs : List (List (Int × Int))) : XFont :=
  if cjk && (match hmtxAt f gname with
             | some wl => decide (wl.1 ≠ 1000)
             | none => true) then f
  else
    let f1 :=
      if (cs.length : Int) > 0 then
        { f with glyf := fun x =>
            if x = gname then TTGlyph.simple (transformContours t cs) else f.glyf x }
      else f
    if cjk then f1
    else
      match f1.hmtx with
      | none => f1
      | some hm =>
        match hm gname with
        | none => f1
        | some wl =>
          { f1 with hmtx := some (fun x =>
              if x = gname then
                some (pyRound ((wl.1 : ℚ) * t.xx), pyRound ((wl.2 : ℚ) * t.xx))
              else hm x) }

/-- The `apply_glyph_transform` loop over the glyph order: a composite glyph
raises immediately (before the CJK width filter); a simple glyph is processed
by `glyphTransformStep`. -/
def applyGlyphTransformGo (t : Affine) (cjk : Bool) :
    List String → XFont → Except String XFont
  | [], f => .ok f
  | gname :: rest, f =>
    match f.glyf gname with
    | .comp _ =>
        .error ("Glyph '" ++ gname ++ "' is still composite; decompose before applying transform.")
    | .simple cs => applyGlyphTransformGo t cjk rest (glyphTransformStep t cjk f gname cs)

/-- `apply_glyph_transform(font, transform, cjk_mode_transform)` (its integer
return value, a progress count, is not modelled). -/
def applyGlyphTransform (f : XFont) (t : Affine) (cjk : Bool) : Except String XFont :=
  applyGlyphTransformGo t cjk f.glyphOrder f

/-- `apply_gpos_transform` at font level (`'GPOS' not in font` means no-op). -/
def applyGposTransformFont (f : XFont) (t : Affine) : XFont :=
  { f with gpos := f.gpos.map (applyGposTransform t) }

/-- The transform block of `extract_font`: glyph transform always, GPOS
transform only outside CJK mode. -/
def transformStage (f : XFont) (t : Affine) (cjk : Bool) : Except String XFont :=
  match applyGlyphTransform f t cjk with
  | .error e => .error e
  | .ok f1 => .ok (if cjk then f1 else applyGposTransformFont f1 t)

/-- Flattening a (possibly composite) glyph into contours, as drawing through
the decomposing pen does: components are drawn recursively with their
transforms applied.  Recursion depth is bounded by fuel (a component cycle,
which fontTools would reject, yields no contours once the fuel is spent). -/
def drawGlyphContours (glyf : String → TTGlyph) : Nat → String → List (List (Int × Int))
  | 0, _ => []
  | fuel + 1, gname =>
    match glyf gname with
    | .simple cs => cs
    | .comp comps =>
        (comps.map (fun c =>
          (drawGlyphContours glyf fuel c.1).map
            (fun contour => contour.map (applyAffinePoint c.2)))).flatten

/-- One iteration of `decompose_composites`: a composite glyph is replaced by
a simple glyph holding its flattened contours (metrics are preserved: the code
re-assigns the recorded metrics unchanged); simple glyphs are left alone. -/
def decomposeStep (f : XFont) (gname : String) : XFont :=
  match f.glyf gname with
  | .simple _ => f
  | .comp _ =>
      { f with glyf := fun x =>
          if x = gname then
            TTGlyph.simple (drawGlyphContours f.glyf (f.glyphOrder.length + 1) gname)
          else f.glyf x }

/-- `decompose_composites`: fold the step over the glyph order. -/
def decomposeComposites (f : XFont) : XFont :=
  f.glyphOrder.foldl decomposeStep f

/-- `extract_font`: instancing (a variable font with no axis settings is a
hard error; a static font ignores supplied axis settings with a warning),
followed by overlap removal on the instanced font, optional decomposition, and
the optional transform block.  `instantiateVariableFont` and `removeOverlaps`
are fontTools library calls, abstracted as function parameters. -/
def extractFont (instancer : XFont → List (String × ℚ) → XFont)
    (overlapRemover : XFont → XFont) (f : XFont) (axes : List (String × ℚ))
    (tf : Option Affine) (cjk skipDecomp : Bool) : Except String XFont :=
  match (if f.fvar then
          (if axes.isEmpty then
            Except.error "Font is variable but no axis settings provided."
          else Except.ok (overlapRemover (instancer f axes)))
        else Except.ok f) with
  | .error e => .error e
  | .ok f1 =>
    let f2 := if skipDecomp then f1 else decomposeComposites f1
    match tf with
    | none => .ok f2
    | some t => transformStage f2 t cjk

/-! ## C8: instancing error handling -/

/-- C8: `extract_font` raises a hard error when the font is variable and no
axis coordinates are supplied, whereas for a non-variable font the supplied
axis coordinates are ignored (the run is identical to one given no axis
coordinates, so they cannot cause a failure; only a warning is printed). -/
theorem extractFont_axis_handling (instancer : XFont → List (String × ℚ) → XFont)
    (overlapRemover : XFont → XFont) (f : XFont) (axes : List (String × ℚ))
    (tf : Option Affine) (cjk skipDecomp : Bool) :
    (f.fvar = true → axes = [] →
      extractFont instancer overlapRemover f axes tf cjk skipDecomp =
        .error "Font is variable but no axis settings provided.") ∧
    (f.fvar = false →
      extractFont instancer overlapRemover f axes tf cjk skipDecomp =
        extractFont instancer overlapRemover f [] tf cjk skipDecomp) := by
  constructor
  · intro hv ha
    subst ha
    simp [extractFont, hv]
  · intro hv
    simp [extractFont, hv]

/-- A concrete static (non-variable) one-glyph font. -/
def xStatic : XFont :=
  { fvar := false, glyphOrder := ["a"], glyf := fun _ => TTGlyph.simple [[(0, 0)]]
    hmtx := some (fun _ => some (500, 10)), gpos := none }

/-- The same font marked variable. -/
def xVar : XFont :=
  { xStatic with fvar := true }

/-- C8 witness: the theorem applied to the concrete fonts — the variable font
with no axis settings errors, and the static font given axis settings behaves
exactly as with none. -/
theorem extractFont_axis_handling_witness :
    extractFont (fun f _ => f) (fun f => f) xVar [] none false false =
      .error "Font is variable but no axis settings provided." ∧
    extractFont (fun f _ => f) (fun f => f) xStatic [("wght", 400)] none false false =
      extractFont (fun f _ => f) (fun f => f) xStatic [] none false false :=
  ⟨(extractFont_axis_handling (fun f _ => f) (fun f => f) xVar []
      none false false).1 rfl rfl,
   (extractFont_axis_handling (fun f _ => f) (fun f => f) xStatic [("wght", 400)]
      none false false).2 rfl⟩

/-! ## C7 / C9: the CJK-mode frame and the composite check -/

theorem glyphTransformStep_cjk_frame (t : Affine) (f : XFont) (gname : String)
    (cs : List (List (Int × Int))) :
    (glyphTransformStep t true f gname cs).gpos = f.gpos ∧
    (glyphTransformStep t true f gname cs).hmtx = f.hmtx ∧
    (glyphTransformStep t true f gname cs).fvar = f.fvar ∧
    (glyphTransformStep t true f gname cs).glyphOrder = f.glyphOrder := by
  unfold glyphTransformStep
  dsimp only
  repeat' split
  all_goals first
    | exact ⟨rfl, rfl, rfl, rfl⟩
    | simp_all

theorem glyphTransformStep_glyf_other (t : Affine) (cjk : Bool) (f : XFont)
    (gname : String) (cs : List (List (Int × Int))) (g : String) (hne : g ≠ gname) :
    (glyphTransformStep t cjk f gname cs).glyf g = f.glyf g := by
  unfold glyphTransformStep
  dsimp only
  repeat' split
  all_goals simp [hne]

theorem glyphTransformStep_cjk_glyf_pred (t : Affine) (f : XFont) (gname : String)
    (cs : List (List (Int × Int))) (g : String)
    (hpred : (match hmtxAt f g with | some wl => wl.1 ≠ 1000 | none => True)) :
    (glyphTransformStep t true f gname cs).glyf g = f.glyf g := by
  by_cases hg : g = gname
  · subst hg
    have hcond : (true && (match hmtxAt f g with
        | some wl => decide (wl.1 ≠ 1000)
        | none => true)) = true := by
      cases hh : hmtxAt f g with
      | none => simp
      | some wl =>
        rw [hh] at hpred
        simp [hpred]
    unfold glyphTransformStep
    rw [if_pos hcond]
  · exact glyphTransformStep_glyf_other t true f gname cs g hg

theorem glyphTransformStep_glyf_isComp (t : Affine) (cjk : Bool) (f : XFont)
    (gname : String) (cs : List (List (Int × Int)))
    (hglyph : f.glyf gname = .simple cs) (g : String) :
    ((glyphTransformStep t cjk f gname cs).glyf g).isComp = ((f.glyf g).isComp) := by
  by_cases hg : g = gname
  · subst hg
    unfold glyphTransformStep
    dsimp only
    repeat' split
    all_goals simp [hglyph, TTGlyph.isComp]
  · rw [glyphTransformStep_glyf_other t cjk f gname cs g hg]

/-- The `apply_glyph_transform` loop in CJK mode, over any suffix of the glyph
order, succeeds on an all-simple glyph set and changes neither the GPOS table,
the metrics, nor any glyph whose advance width differs from 1000 (or which has
no metrics entry). -/
theorem applyGlyphTransformGo_cjk_frame (t : Affine) (l : List String) :
    ∀ f : XFont, (∀ g ∈ l, (f.glyf g).isComp = false) →
    ∃ f', applyGlyphTransformGo t true l f = .ok f' ∧
      f'.gpos = f.gpos ∧ f'.hmtx = f.hmtx ∧ f'.fvar = f.fvar ∧
      f'.glyphOrder = f.glyphOrder ∧
      ∀ g, (match hmtxAt f g with | some wl => wl.1 ≠ 1000 | none => True) →
        f'.glyf g = f.glyf g := by
  induction l with
  | nil =>
    intro f _
    exact ⟨f, rfl, rfl, rfl, rfl, rfl, fun _ _ => rfl⟩
  | cons gname rest ih =>
    intro f h
    have hgn := h gname (List.mem_cons_self _ _)
    cases hglyph : f.glyf gname with
    | comp comps =>
      rw [hglyph] at hgn
      simp [TTGlyph.isComp] at hgn
    | simple cs =>
      have hrest : ∀ g ∈ rest,
          ((glyphTransformStep t true f gname cs).glyf g).isComp = false := by
        intro g hg
        rw [glyphTransformStep_glyf_isComp t true f gname cs hglyph g]
        exact h g (List.mem_cons_of_mem _ hg)
      obtain ⟨f', hrun, hgpos, hhmtx, hfvar, horder, hglyf⟩ :=
        ih (glyphTransformStep t true f gname cs) hrest
      have hframe := glyphTransformStep_cjk_frame t f gname cs
      refine ⟨f', ?_, hgpos.trans hframe.1, hhmtx.trans hframe.2.1,
        hfvar.trans hframe.2.2.1, horder.trans hframe.2.2.2, ?_⟩
      · simp only [applyGlyphTransformGo]
        rw [hglyph]
        exact hrun
      · intro g hpred
        have hpred2 : (match hmtxAt (glyphTransformStep t true f gname cs) g with
            | some wl => wl.1 ≠ 1000
            | none => True) := by
          have heq : hmtxAt (glyphTransformStep t true f gname cs) g = hmtxAt f g := by
            unfold hmtxAt
            rw [hframe.2.1]
          rw [heq]
          exact hpred
        rw [hglyf g hpred2]
        exact glyphTransformStep_cjk_glyf_pred t f gname cs g hpred

/-- C7: in full-width-preserving (CJK) mode, the transform block of
`extract_font` succeeds on an all-simple glyph set, leaves the positioning
table and the whole metrics table untouched, and leaves unchanged the outline
of every glyph whose advance width differs from 1000 (for example 900) or
which has no metrics entry; only width-1000 glyph outlines can change. -/
theorem transform_cjk_only_fullwidth (f : XFont) (t : Affine)
    (hs : ∀ g ∈ f.glyphOrder, (f.glyf g).isComp = false) :
    ∃ f', transformStage f t true = .ok f' ∧
      f'.gpos = f.gpos ∧ f'.hmtx = f.hmtx ∧
      ∀ g, (match hmtxAt f g with | some wl => wl.1 ≠ 1000 | none => True) →
        f'.glyf g = f.glyf g := by
  obtain ⟨f', hrun, hgpos, hhmtx, _, _, hglyf⟩ :=
    applyGlyphTransformGo_cjk_frame t f.glyphOrder f hs
  refine ⟨f', ?_, hgpos, hhmtx, hglyf⟩
  simp [transformStage, applyGlyphTransform, hrun]

/-- A concrete all-simple font with one glyph of width 900 and a GPOS value
record the unrestricted mode would rescale. -/
def x900 : XFont :=
  { fvar := false, glyphOrder := ["w"]
    glyf := fun _ => TTGlyph.simple [[(0, 0), (10, 0)]]
    hmtx := some (fun _ => some (900, 10))
    gpos := some ⟨[⟨1, [ExSubTable.singleF1 ["w"] (some ⟨some 5, none, none, none⟩)]⟩]⟩ }

/-- C7 witness: the theorem applied to `x900` under the transform
`(0.47, 0, 0, 0.47, 0, 16)`: the width-900 glyph, its metrics and the
positioning table all stay unchanged. -/
theorem transform_cjk_only_fullwidth_witness :
    ∃ f', transformStage x900 ⟨47/100, 0, 0, 47/100, 0, 16⟩ true = .ok f' ∧
      f'.gpos = x900.gpos ∧ f'.hmtx = x900.hmtx ∧
      ∀ g, (match hmtxAt x900 g with | some wl => wl.1 ≠ 1000 | none => True) →
        f'.glyf g = x900.glyf g :=
  transform_cjk_only_fullwidth x900 ⟨47/100, 0, 0, 47/100, 0, 16⟩
    (by intro g hg; rfl)

/-- The `apply_glyph_transform` loop raises on the first composite glyph it
reaches, whatever the mode and the glyph's advance width. -/
theorem applyGlyphTransformGo_comp_error (t : Affine) (cjk : Bool) (l : List String) :
    ∀ f : XFont, (∃ g ∈ l, (f.glyf g).isComp = true) →
      ∃ e, applyGlyphTransformGo t cjk l f = .error e := by
  induction l with
  | nil =>
    intro f hex
    obtain ⟨g, hg, -⟩ := hex
    exact absurd hg (List.not_mem_nil g)
  | cons gname rest ih =>
    intro f hex
    obtain ⟨g, hgmem, hgc⟩ := hex
    cases hglyph : f.glyf gname with
    | comp comps =>
      refine ⟨"Glyph '" ++ gname ++ "' is still composite; decompose before applying transform.", ?_⟩
      simp only [applyGlyphTransformGo]
      rw [hglyph]
    | simple cs =>
      have hne : g ≠ gname := by
        intro e
        rw [e, hglyph] at hgc
        simp [TTGlyph.isComp] at hgc
      have hgrest : g ∈ rest := by
        rcases List.mem_cons.mp hgmem with h | h
        · exact absurd h hne
        · exact h
      obtain ⟨e, he⟩ := ih (glyphTransformStep t cjk f gname cs)
        ⟨g, hgrest, by
          rw [glyphTransformStep_glyf_other t cjk f gname cs g hne]
          exact hgc⟩
      refine ⟨e, ?_⟩
      simp only [applyGlyphTransformGo]
      rw [hglyph]
      exact he

/-- C9: the composite check of `apply_glyph_transform` runs before the
full-width filter: whenever any glyph of the order is composite the call
fails, in full-width-preserving mode too, even though a simple glyph with the
same (non-1000) advance width would have been skipped untouched. -/
theorem transform_composite_always_errors (f : XFont) (t : Affine) (cjk : Bool)
    (hc : ∃ g ∈ f.glyphOrder, (f.glyf g).isComp = true) :
    ∃ e, applyGlyphTransform f t cjk = .error e :=
  applyGlyphTransformGo_comp_error t cjk f.glyphOrder f hc

/-- A font whose only glyph is composite with advance width 900. -/
def xComp900 : XFont :=
  { fvar := false, glyphOrder := ["b"]
    glyf := fun _ => TTGlyph.comp [("a", ⟨1, 0, 0, 1, 0, 0⟩)]
    hmtx := some (fun _ => some (900, 0)), gpos := none }

/-- C9 witness: in CJK mode a composite glyph of width 900 — which, were it
simple, would be skipped by the width filter — still makes the transform
fail. -/
theorem transform_composite_always_errors_witness :
    hmtxAt xComp900 "b" = some (900, 0) ∧
      ∃ e, applyGlyphTransform xComp900 ⟨1, 0, 0, 1, 0, 0⟩ true = .error e :=
  ⟨rfl, transform_composite_always_errors xComp900 ⟨1, 0, 0, 1, 0, 0⟩ true
    ⟨"b", List.mem_singleton.mpr rfl, rfl⟩⟩
